import Mathlib

/-!
Verification of the agent-loop iteration ledger of the
`cracked-open-sesame-hackathon` repository.

The ledger lives in `solaris-browse/migrations/01_create_tables.sql`:
two tables (`agents`, `agent_loops`), a `BEFORE INSERT` trigger function
`next_iteration` that fills a `NULL` iteration with
`COALESCE(MAX(iteration) + 1, 1)` over the rows visible to the inserting
statement, a composite primary key on `(agent_id, iteration)` and a
foreign key from `agent_loops.agent_id` to `agents.id`.

The write boundary is the Next.js route handler
(`app/api/submitform/route.ts`), the form component
(`my-app/app/components/Form.tsx`) and the metrics component
(`my-app/app/components/Metrics.tsx`); they are embedded further below.
-/

/-- One row of the `agent_loops` table.  UUIDs are modelled as opaque
strings; `iteration` is a SQL `INTEGER`, modelled as `Int`; the two text
payloads are nullable. -/
structure LoopRecord where
  agent_id : String
  iteration : Int
  plan_result : Option String
  execution_result : Option String
deriving DecidableEq, Repr

/-- The database state relevant to the ledger: the set of ids present in
the `agents` table and the rows of `agent_loops` (in insertion order). -/
structure DBState where
  agents : List String
  agent_loops : List LoopRecord
deriving DecidableEq, Repr

/-- The iteration numbers stored for one agent, in row order:
`SELECT iteration FROM agent_loops WHERE agent_id = aid`. -/
def agentIters (loops : List LoopRecord) (aid : String) : List Int :=
  (loops.filter (fun r => r.agent_id == aid)).map (fun r => r.iteration)

/-- SQL `MAX` over a list of integers: `none` on the empty set. -/
def sqlMax : List Int → Option Int
  | [] => none
  | x :: xs =>
    match sqlMax xs with
    | none => some x
    | some m => some (max x m)

/-- The trigger function `next_iteration`: if the caller supplied a
non-`NULL` iteration it is kept unchanged; otherwise it is set to
`COALESCE(MAX(iteration) + 1, 1)` over the rows (of this agent) visible
to the statement. -/
def next_iteration (visible : List LoopRecord) (aid : String)
    (supplied : Option Int) : Int :=
  match supplied with
  | some v => v
  | none =>
    match sqlMax (agentIters visible aid) with
    | none => 1
    | some m => m + 1

/-- Failure modes of an `INSERT` into `agent_loops`: violation of the
primary key on `(agent_id, iteration)`, or of the foreign key to
`agents`. -/
inductive InsertError
  | duplicateKey
  | unknownAgent
deriving DecidableEq, Repr

/-- The atomic row insertion with its constraint checks, after the
trigger has already fixed the iteration value.  The unique-index check
fires before the referential check, as in PostgreSQL (foreign keys are
enforced by after-row triggers, unique violations at index insertion). -/
def insertWith (db : DBState) (aid : String) (iter : Int)
    (p e : Option String) : Except InsertError DBState :=
  if iter ∈ agentIters db.agent_loops aid then
    .error .duplicateKey
  else if aid ∈ db.agents then
    .ok ⟨db.agents, db.agent_loops ++ [⟨aid, iter, p, e⟩]⟩
  else
    .error .unknownAgent

/-- A full `INSERT INTO agent_loops` executed in isolation: the trigger
computes the iteration from the rows currently in the table, then the
row is inserted subject to the constraints. -/
def insertLoop (db : DBState) (aid : String) (supplied : Option Int)
    (p e : Option String) : Except InsertError DBState :=
  insertWith db aid (next_iteration db.agent_loops aid supplied) p e

/-- The state after an isolated `INSERT`: a failed statement is aborted
and leaves the table unchanged. -/
def applyInsert (db : DBState) (aid : String) (supplied : Option Int)
    (p e : Option String) : DBState :=
  match insertLoop db aid supplied p e with
  | .ok db' => db'
  | .error _ => db

/-- One write-path call racing with others: the trigger reads `MAX` over
a snapshot of rows committed when its statement started (`snap`), while
the constraint-checked insertion itself is atomic against the current
state `db`.  A failed insertion is aborted and leaves the table
unchanged. -/
def applyWrite (db : DBState) (snap : List LoopRecord) (aid : String)
    (p e : Option String) : DBState :=
  match insertWith db aid (next_iteration snap aid none) p e with
  | .ok db' => db'
  | .error _ => db

/-- States reachable from an empty `agent_loops` table by any
interleaving of write-path inserts (iteration left `NULL`, so the
trigger assigns it) and agent creations.  Each write may read its `MAX`
from any stale snapshot of already-committed rows. -/
inductive WriteReach : DBState → Prop
  | init (agents : List String) : WriteReach ⟨agents, []⟩
  | write (db : DBState) (snap : List LoopRecord) (aid : String)
      (p e : Option String)
      (hsub : ∀ r ∈ snap, r ∈ db.agent_loops)
      (hr : WriteReach db) :
      WriteReach (applyWrite db snap aid p e)
  | create (db : DBState) (aid : String) (hr : WriteReach db) :
      WriteReach ⟨aid :: db.agents, db.agent_loops⟩

/-- The ledger invariant for one agent: the stored iteration numbers are
exactly `{1, …, N}` for some `N ≥ 0`, with no duplicate rows. -/
def contiguousLedger (loops : List LoopRecord) (aid : String) : Prop :=
  (∃ N : Nat, ∀ i : Int, i ∈ agentIters loops aid ↔ 1 ≤ i ∧ i ≤ (N : Int)) ∧
    (agentIters loops aid).Nodup

theorem mem_agentIters {loops : List LoopRecord} {aid : String} {i : Int} :
    i ∈ agentIters loops aid ↔
      ∃ r ∈ loops, r.agent_id = aid ∧ r.iteration = i := by
  simp only [agentIters, List.mem_map, List.mem_filter, beq_iff_eq]
  constructor
  · rintro ⟨r, ⟨hr, ha⟩, hi⟩
    exact ⟨r, hr, ha, hi⟩
  · rintro ⟨r, hr, ha, hi⟩
    exact ⟨r, ⟨hr, ha⟩, hi⟩

theorem agentIters_append {l₁ l₂ : List LoopRecord} {aid : String} :
    agentIters (l₁ ++ l₂) aid = agentIters l₁ aid ++ agentIters l₂ aid := by
  simp [agentIters, List.filter_append]

theorem agentIters_single {aid a : String} {i : Int} {p e : Option String} :
    agentIters [⟨a, i, p, e⟩] aid = if a = aid then [i] else [] := by
  by_cases h : a = aid <;> simp [agentIters, h]

theorem sqlMax_eq_none {l : List Int} : sqlMax l = none ↔ l = [] := by
  cases l with
  | nil => simp [sqlMax]
  | cons x xs =>
    simp only [sqlMax]
    cases hx : sqlMax xs <;> simp

theorem sqlMax_mem {l : List Int} {m : Int} (h : sqlMax l = some m) :
    m ∈ l := by
  induction l generalizing m with
  | nil => simp [sqlMax] at h
  | cons x xs ih =>
    simp only [sqlMax] at h
    cases hx : sqlMax xs with
    | none => rw [hx] at h; simp at h; simp [h]
    | some m' =>
      rw [hx] at h
      simp only [Option.some.injEq] at h
      rcases max_cases x m' with ⟨he, _⟩ | ⟨he, _⟩
      · simp [← h, he]
      · right; rw [← h, he]; exact ih hx

theorem sqlMax_le {l : List Int} {m x : Int} (hm : sqlMax l = some m)
    (hx : x ∈ l) : x ≤ m := by
  induction l generalizing m with
  | nil => simp at hx
  | cons y ys ih =>
    simp only [sqlMax] at hm
    cases hy : sqlMax ys with
    | none =>
      rw [hy] at hm
      simp only [Option.some.injEq] at hm
      rcases List.mem_cons.mp hx with h | h
      · omega
      · rw [sqlMax_eq_none.mp hy] at h; simp at h
    | some m' =>
      rw [hy] at hm
      simp only [Option.some.injEq] at hm
      rcases List.mem_cons.mp hx with h | h
      · rw [← hm, h]; exact le_max_left _ _
      · exact le_trans (ih hy h) (hm ▸ le_max_right _ _)

theorem agentIters_subset {snap loops : List LoopRecord} {aid : String}
    (hsub : ∀ r ∈ snap, r ∈ loops) {i : Int}
    (hi : i ∈ agentIters snap aid) : i ∈ agentIters loops aid := by
  rcases mem_agentIters.mp hi with ⟨r, hr, ha, hit⟩
  exact mem_agentIters.mpr ⟨r, hsub r hr, ha, hit⟩

theorem next_iteration_none_eq (visible : List LoopRecord) (aid : String) :
    (agentIters visible aid = [] ∧ next_iteration visible aid none = 1) ∨
    (∃ m, m ∈ agentIters visible aid ∧
      (∀ x ∈ agentIters visible aid, x ≤ m) ∧
      next_iteration visible aid none = m + 1) := by
  unfold next_iteration
  cases hm : sqlMax (agentIters visible aid) with
  | none => exact Or.inl ⟨sqlMax_eq_none.mp hm, rfl⟩
  | some m =>
    exact Or.inr ⟨m, sqlMax_mem hm, fun x hx => sqlMax_le hm hx, rfl⟩

theorem contiguousLedger_nil (a : String) :
    contiguousLedger [] a := by
  refine ⟨⟨0, fun i => ?_⟩, ?_⟩
  · simp only [agentIters, List.filter_nil, List.map_nil, List.not_mem_nil,
      false_iff, Nat.cast_zero]
    omega
  · simp [agentIters]

theorem contiguousLedger_applyWrite (db : DBState) (snap : List LoopRecord)
    (aid a : String) (p e : Option String)
    (hsub : ∀ r ∈ snap, r ∈ db.agent_loops)
    (hinv : contiguousLedger db.agent_loops a) :
    contiguousLedger (applyWrite db snap aid p e).agent_loops a := by
  unfold applyWrite insertWith
  by_cases hk : next_iteration snap aid none ∈ agentIters db.agent_loops aid
  · rw [if_pos hk]; exact hinv
  · rw [if_neg hk]
    by_cases hc : aid ∈ db.agents
    · rw [if_pos hc]
      show contiguousLedger
        (db.agent_loops ++ [⟨aid, next_iteration snap aid none, p, e⟩]) a
      by_cases ha : aid = a
      · subst ha
        obtain ⟨⟨N, hN⟩, hnd⟩ := hinv
        have hbound : 1 ≤ next_iteration snap aid none ∧
            next_iteration snap aid none ≤ (N : Int) + 1 := by
          rcases next_iteration_none_eq snap aid with ⟨_, heq⟩ |
            ⟨m, hmem, _, heq⟩
          · rw [heq]; omega
          · have hm2 := (hN m).mp (agentIters_subset hsub hmem)
            rw [heq]; omega
        have hout : ¬ (1 ≤ next_iteration snap aid none ∧
            next_iteration snap aid none ≤ (N : Int)) :=
          fun hh => hk ((hN _).mpr hh)
        have hexact : next_iteration snap aid none = (N : Int) + 1 := by omega
        refine ⟨⟨N + 1, fun i => ?_⟩, ?_⟩
        · rw [agentIters_append, List.mem_append, agentIters_single,
            if_pos rfl, List.mem_singleton, hN i, hexact]
          push_cast
          omega
        · rw [agentIters_append, List.nodup_append, agentIters_single,
            if_pos rfl]
          refine ⟨hnd, List.nodup_singleton _, fun x hx hx' => ?_⟩
          rw [List.mem_singleton] at hx'
          subst hx'
          exact hk hx
      · obtain ⟨⟨N, hN⟩, hnd⟩ := hinv
        refine ⟨⟨N, fun i => ?_⟩, ?_⟩
        · rw [agentIters_append, agentIters_single, if_neg ha,
            List.append_nil]
          exact hN i
        · rw [agentIters_append, agentIters_single, if_neg ha,
            List.append_nil]
          exact hnd
    · rw [if_neg hc]; exact hinv

/-- Claim C1: for every `agent_id`, the set of iteration numbers stored
in `agent_loops` is exactly `{1, …, N}` for some `N ≥ 0` — contiguous
from 1, with no gaps and no duplicates — after any sequence of inserts
through the write path, regardless of how many concurrent callers write
records for that agent (each caller may compute its trigger `MAX` from a
stale snapshot of committed rows). -/
theorem ledger_iterations_contiguous (db : DBState) (h : WriteReach db)
    (aid : String) : contiguousLedger db.agent_loops aid := by
  induction h with
  | init agents => exact contiguousLedger_nil aid
  | write db snap a p e hsub hr ih =>
    exact contiguousLedger_applyWrite db snap a aid p e hsub ih
  | create db a hr ih => exact ih

theorem ledger_iterations_contiguous_witness :
    WriteReach (applyWrite (applyWrite ⟨["A"], []⟩ [] "A" (some "p1")
      (some "e1")) [] "A" (some "p2") (some "e2")) ∧
    contiguousLedger (applyWrite (applyWrite ⟨["A"], []⟩ [] "A" (some "p1")
      (some "e1")) [] "A" (some "p2") (some "e2")).agent_loops "A" := by
  have hreach : WriteReach (applyWrite (applyWrite ⟨["A"], []⟩ [] "A"
      (some "p1") (some "e1")) [] "A" (some "p2") (some "e2")) :=
    WriteReach.write _ [] "A" (some "p2") (some "e2") (by simp)
      (WriteReach.write _ [] "A" (some "p1") (some "e1") (by simp)
        (WriteReach.init ["A"]))
  exact ⟨hreach, ledger_iterations_contiguous _ hreach "A"⟩

/-- Claim C2: the claim asserts that K concurrent record-writing calls
for one agent always yield K distinct, contiguous iteration numbers.
The `next_iteration` trigger of the code computes `MAX(iteration) + 1` with
no serialization, so two racing callers that both read the table before
either commits compute the same value; the primary key then aborts the
second insert entirely.  This theorem evaluates the model at that
failing interleaving: caller 1 succeeds with iteration 1, caller 2
(holding the stale empty snapshot) fails with a duplicate-key error, so
K = 2 concurrent calls yield only one iteration instead of two. -/
theorem concurrent_write_race :
    applyWrite (⟨["A"], []⟩ : DBState) [] "A" (some "p1") (some "e1") =
      ⟨["A"], [⟨"A", 1, some "p1", some "e1"⟩]⟩ ∧
    insertWith (⟨["A"], [⟨"A", 1, some "p1", some "e1"⟩]⟩ : DBState) "A"
        (next_iteration ([] : List LoopRecord) "A" none)
        (some "p2") (some "e2") =
      .error .duplicateKey := by
  constructor <;> rfl

/-- The iteration list `[1, 2, …, N]`. -/
def rangeIters (N : Nat) : List Int :=
  (List.range N).map (fun k => (k : Int) + 1)

/-- One sequential write-path call executed in isolation: the iteration
is left `NULL` and the trigger reads the current table. -/
def seqWrite (db : DBState) (aid : String) : DBState :=
  applyInsert db aid none none none

/-- `N` sequential write-path calls for one agent. -/
def seqWriteN (db : DBState) (aid : String) : Nat → DBState
  | 0 => db
  | n + 1 => seqWrite (seqWriteN db aid n) aid

theorem rangeIters_succ {N : Nat} :
    rangeIters (N + 1) = rangeIters N ++ [(N : Int) + 1] := by
  simp [rangeIters, List.range_succ]

theorem mem_rangeIters {N : Nat} {i : Int} :
    i ∈ rangeIters N ↔ 1 ≤ i ∧ i ≤ (N : Int) := by
  induction N with
  | zero =>
    constructor
    · intro h
      simp [rangeIters] at h
    · rintro ⟨h1, h2⟩
      exfalso
      omega
  | succ n ih =>
    rw [rangeIters_succ]
    simp only [List.mem_append, List.mem_singleton, ih]
    push_cast
    omega

theorem rangeIters_sorted {N : Nat} : List.Sorted (· < ·) (rangeIters N) := by
  induction N with
  | zero => simp [rangeIters]
  | succ n ih =>
    rw [rangeIters_succ]
    refine List.pairwise_append.mpr ⟨ih, by simp, fun a ha b hb => ?_⟩
    rw [List.mem_singleton] at hb
    subst hb
    have := mem_rangeIters.mp ha
    omega

theorem sqlMax_append_single {l : List Int} {x : Int} :
    sqlMax (l ++ [x]) = some (match sqlMax l with
      | none => x
      | some m => max m x) := by
  induction l with
  | nil => rfl
  | cons y ys ih =>
    rw [List.cons_append, sqlMax, ih, sqlMax]
    cases hys : sqlMax ys with
    | none => simp
    | some m => simp [max_assoc]

theorem sqlMax_rangeIters {N : Nat} :
    sqlMax (rangeIters N) = if N = 0 then none else some (N : Int) := by
  induction N with
  | zero => rfl
  | succ n ih =>
    rw [rangeIters_succ, sqlMax_append_single, ih]
    by_cases h0 : n = 0
    · subst h0; simp
    · rw [if_neg h0, if_neg (Nat.succ_ne_zero n)]
      have : max (n : Int) ((n : Int) + 1) = (n : Int) + 1 := by omega
      push_cast
      simp [this]

theorem applyInsert_null_range (db : DBState) (aid : String) (N : Nat)
    (hagents : aid ∈ db.agents)
    (hiters : agentIters db.agent_loops aid = rangeIters N) :
    (applyInsert db aid none none none).agents = db.agents ∧
    agentIters (applyInsert db aid none none none).agent_loops aid =
      rangeIters (N + 1) := by
  have hnext : next_iteration db.agent_loops aid none = (N : Int) + 1 := by
    unfold next_iteration
    rw [hiters, sqlMax_rangeIters]
    by_cases h0 : N = 0
    · subst h0; simp
    · rw [if_neg h0]
  have hnotmem : next_iteration db.agent_loops aid none ∉
      agentIters db.agent_loops aid := by
    rw [hnext, hiters]
    intro hmem
    rw [mem_rangeIters] at hmem
    omega
  unfold applyInsert insertLoop insertWith
  rw [if_neg hnotmem, if_pos hagents]
  refine ⟨rfl, ?_⟩
  show agentIters (db.agent_loops ++
    [⟨aid, next_iteration db.agent_loops aid none, none, none⟩]) aid = _
  rw [agentIters_append, agentIters_single, if_pos rfl, hiters, hnext,
    rangeIters_succ]

theorem seqWriteN_spec (aid : String) (N : Nat) :
    ((seqWriteN ⟨[aid], []⟩ aid N).agents = [aid]) ∧
    agentIters (seqWriteN ⟨[aid], []⟩ aid N).agent_loops aid =
      rangeIters N := by
  induction N with
  | zero => exact ⟨rfl, rfl⟩
  | succ n ih =>
    obtain ⟨h1, h2⟩ := ih
    have hmem : aid ∈ (seqWriteN ⟨[aid], []⟩ aid n).agents := by
      rw [h1]; exact List.mem_singleton.mpr rfl
    have hstep := applyInsert_null_range (seqWriteN ⟨[aid], []⟩ aid n)
      aid n hmem h2
    refine ⟨?_, hstep.2⟩
    show (applyInsert (seqWriteN ⟨[aid], []⟩ aid n) aid
      none none none).agents = [aid]
    rw [hstep.1, h1]

/-- Claim C3: for any agent and any `N`, after `N` successful sequential
record-cycle inserts (each leaving the iteration unassigned so the
trigger supplies it), the stored history of the agent is exactly the
iterations `1, …, N` in ascending order with no gaps. -/
theorem sequential_writes_history (aid : String) (N : Nat) :
    agentIters (seqWriteN ⟨[aid], []⟩ aid N).agent_loops aid =
      rangeIters N ∧
    (∀ i : Int, i ∈ rangeIters N ↔ 1 ≤ i ∧ i ≤ (N : Int)) ∧
    List.Sorted (· < ·) (rangeIters N) :=
  ⟨(seqWriteN_spec aid N).2, fun _ => mem_rangeIters, rangeIters_sorted⟩

/-- Claim C4: once an append of a record with key
`(agent_id, iteration)` has succeeded, every later append with the same
key fails with a duplicate-key error (the primary key on
`(agent_id, iteration)`), and the originally stored record — including
its `plan_result` and `execution_result` — is unchanged by the failed
attempt. -/
theorem append_duplicate_rejected (db : DBState) (rec : LoopRecord)
    (p' e' : Option String) (h : rec ∈ db.agent_loops) :
    insertLoop db rec.agent_id (some rec.iteration) p' e' =
      .error .duplicateKey ∧
    applyInsert db rec.agent_id (some rec.iteration) p' e' = db ∧
    rec ∈ (applyInsert db rec.agent_id (some rec.iteration)
      p' e').agent_loops := by
  have hmem : rec.iteration ∈ agentIters db.agent_loops rec.agent_id :=
    mem_agentIters.mpr ⟨rec, h, rfl, rfl⟩
  have h1 : insertLoop db rec.agent_id (some rec.iteration) p' e' =
      .error .duplicateKey := by
    show insertWith db rec.agent_id
      (next_iteration db.agent_loops rec.agent_id (some rec.iteration))
      p' e' = _
    rw [show next_iteration db.agent_loops rec.agent_id
      (some rec.iteration) = rec.iteration from rfl]
    unfold insertWith
    rw [if_pos hmem]
  refine ⟨h1, ?_, ?_⟩
  · unfold applyInsert
    rw [h1]
  · unfold applyInsert
    rw [h1]
    exact h

theorem append_duplicate_rejected_witness :
    ((⟨"A", 1, some "p", some "e"⟩ : LoopRecord) ∈
      (⟨["A"], [⟨"A", 1, some "p", some "e"⟩]⟩ : DBState).agent_loops) ∧
    (insertLoop ⟨["A"], [⟨"A", 1, some "p", some "e"⟩]⟩ "A" (some 1)
        (some "p2") (some "e2") = .error .duplicateKey ∧
      applyInsert ⟨["A"], [⟨"A", 1, some "p", some "e"⟩]⟩ "A" (some 1)
        (some "p2") (some "e2") =
        ⟨["A"], [⟨"A", 1, some "p", some "e"⟩]⟩ ∧
      (⟨"A", 1, some "p", some "e"⟩ : LoopRecord) ∈
        (applyInsert ⟨["A"], [⟨"A", 1, some "p", some "e"⟩]⟩ "A" (some 1)
          (some "p2") (some "e2")).agent_loops) :=
  ⟨by decide, append_duplicate_rejected
    ⟨["A"], [⟨"A", 1, some "p", some "e"⟩]⟩
    ⟨"A", 1, some "p", some "e"⟩ (some "p2") (some "e2") (by decide)⟩

/-- Claim C5: a write-path insert (iteration left `NULL`) for an
`agent_id` that was never created in the `agents` registry fails with
an unknown-agent error (the foreign key to `agents`) and writes no loop
record: the `agent_loops` store is unchanged.  The hypothesis `hfk`
states referential integrity of the starting state, which the foreign
key maintains. -/
theorem unknown_agent_rejected (db : DBState) (aid : String)
    (p e : Option String)
    (hfk : ∀ r ∈ db.agent_loops, r.agent_id ∈ db.agents)
    (h : aid ∉ db.agents) :
    insertLoop db aid none p e = .error .unknownAgent ∧
    applyInsert db aid none p e = db := by
  have hnk : next_iteration db.agent_loops aid none ∉
      agentIters db.agent_loops aid := by
    intro hmem
    rcases mem_agentIters.mp hmem with ⟨r, hr, ha, _⟩
    exact h (ha ▸ hfk r hr)
  have h1 : insertLoop db aid none p e = .error .unknownAgent := by
    unfold insertLoop insertWith
    rw [if_neg hnk, if_neg h]
  refine ⟨h1, ?_⟩
  unfold applyInsert
  rw [h1]

theorem unknown_agent_rejected_witness :
    (∀ r ∈ (⟨["A"], []⟩ : DBState).agent_loops,
      r.agent_id ∈ (⟨["A"], []⟩ : DBState).agents) ∧
    ("B" ∉ (⟨["A"], []⟩ : DBState).agents) ∧
    (insertLoop ⟨["A"], []⟩ "B" none (some "p") (some "e") =
        .error .unknownAgent ∧
      applyInsert ⟨["A"], []⟩ "B" none (some "p") (some "e") =
        ⟨["A"], []⟩) :=
  ⟨by simp, by simp, unknown_agent_rejected _ _ _ _ (by simp) (by simp)⟩

/-- Claim C6: an insert that supplies a non-`NULL` iteration passes
through the `next_iteration` trigger unchanged, so the stored record
carries exactly the caller-supplied value even when it is not the
smallest unused positive integer for that agent — explicit inserts can
create gaps, constrained only by the primary-key uniqueness on
`(agent_id, iteration)` (and the foreign key on the agent). -/
theorem explicit_iteration_preserved :
    (∀ (loops : List LoopRecord) (aid : String) (v : Int),
      next_iteration loops aid (some v) = v) ∧
    (∀ (db : DBState) (aid : String) (v : Int) (p e : Option String),
      v ∉ agentIters db.agent_loops aid → aid ∈ db.agents →
      insertLoop db aid (some v) p e =
        .ok ⟨db.agents, db.agent_loops ++ [⟨aid, v, p, e⟩]⟩) := by
  refine ⟨fun _ _ _ => rfl, fun db aid v p e hnk ha => ?_⟩
  show insertWith db aid
    (next_iteration db.agent_loops aid (some v)) p e = _
  rw [show next_iteration db.agent_loops aid (some v) = v from rfl]
  unfold insertWith
  rw [if_neg hnk, if_pos ha]

theorem explicit_iteration_preserved_witness :
    ((5 : Int) ∉ agentIters (⟨["A"], []⟩ : DBState).agent_loops "A") ∧
    ("A" ∈ (⟨["A"], []⟩ : DBState).agents) ∧
    insertLoop ⟨["A"], []⟩ "A" (some 5) none none =
      .ok ⟨["A"], [⟨"A", 5, none, none⟩]⟩ ∧
    ((1 : Int) ∉ agentIters [(⟨"A", 5, none, none⟩ : LoopRecord)] "A") ∧
    ((5 : Int) ∈ agentIters [(⟨"A", 5, none, none⟩ : LoopRecord)] "A") :=
  ⟨by decide, by decide,
    explicit_iteration_preserved.2 _ _ _ _ _ (by decide) (by decide),
    by decide, by decide⟩

/-- The body of the submission form, as assembled in `Form.tsx`
(`requestData`): target URL, intent and context. -/
structure RequestData where
  url : String
  intent : String
  context : String
deriving DecidableEq, Repr

/-- The JSON body the provisioning backend replies with, as consumed by
the route handler in `route.ts`: it destructures exactly `sessionId`,
`debuggingUrl`, `status` and `title`, each of which may be absent; a
backend error report (an `error` field) is carried but never read by
the route. -/
structure BackendBody where
  sessionId : Option String
  debuggingUrl : Option String
  status : Option String
  title : Option String
  error : Option String
deriving DecidableEq, Repr

/-- The request body as seen by `await req.json()`: either it fails to
parse (throwing) or it yields the form data. -/
inductive ReqBody
  | malformed
  | valid (data : RequestData)
deriving DecidableEq, Repr

/-- The outcome of the backend fetch inside the
route handler: the backend may be unreachable (fetch throws), may reply
with a non-JSON body of some HTTP status (`response.json()` throws), or
may reply with a JSON body of some HTTP status. -/
inductive BackendResult
  | unreachable
  | invalidJson (httpStatus : Nat)
  | jsonResp (httpStatus : Nat) (body : BackendBody)
deriving DecidableEq, Repr

/-- The response the route handler returns: on the non-throwing path a
200 response holding exactly the four destructured fields, otherwise
the single generic error body (the catch branch) with
status 500. -/
inductive RouteResponse
  | success (sessionId debuggingUrl status title : Option String)
  | genericError
deriving DecidableEq, Repr

/-- HTTP status of a route response: `NextResponse.json` defaults to
200; the catch branch passes status 500 explicitly. -/
def httpStatusOf : RouteResponse → Nat
  | .success _ _ _ _ => 200
  | .genericError => 500

/-- The `POST` handler of `app/api/submitform/route.ts`: parse the
request body, forward it to the backend, destructure the reply, and
return the four fields; any exception along the way lands in the single
`catch` branch, which returns the generic error. -/
def routePOST (req : ReqBody) (backend : BackendResult) : RouteResponse :=
  match req with
  | .malformed => .genericError
  | .valid _ =>
    match backend with
    | .unreachable => .genericError
    | .invalidJson _ => .genericError
    | .jsonResp _ body =>
      .success body.sessionId body.debuggingUrl body.status body.title

/-- Claim C7, counterexample: the claim says distinct failure causes of
the write boundary are surfaced as distinguishable results.  In the
code, a malformed request body and an unreachable backend produce the
identical generic response, and a backend-reported JSON error is not
surfaced as a failure at all: the route returns a 200 success-shaped
response whose four fields are all absent. -/
theorem route_failures_collapsed :
    routePOST .malformed
        (.jsonResp 200 ⟨some "s", some "d", some "ok", some "t", none⟩) =
      routePOST (.valid ⟨"u", "i", "c"⟩) .unreachable ∧
    routePOST (.valid ⟨"u", "i", "c"⟩) .unreachable = .genericError ∧
    routePOST (.valid ⟨"u", "i", "c"⟩)
        (.jsonResp 500 ⟨none, none, none, none, some "boom"⟩) =
      .success none none none none ∧
    httpStatusOf (routePOST (.valid ⟨"u", "i", "c"⟩)
        (.jsonResp 500 ⟨none, none, none, none, some "boom"⟩)) = 200 := by
  exact ⟨rfl, rfl, rfl, rfl⟩

/-- Claim C7, amended: every failure that throws inside the route
handler (malformed body, unreachable backend, non-JSON backend reply)
returns an error outcome distinguishable from success — exactly the
generic 500 response, the same one for all such causes; a backend JSON
reply, error-reporting or not, is returned as a 200 success-shaped
response. -/
theorem route_error_outcomes :
    (∀ (req : ReqBody) (backend : BackendResult),
      routePOST req backend = .genericError ↔
        (req = .malformed ∨ backend = .unreachable ∨
          ∃ st, backend = .invalidJson st)) ∧
    (∀ (req : ReqBody) (backend : BackendResult),
      httpStatusOf (routePOST req backend) = 500 ↔
        routePOST req backend = .genericError) ∧
    (∀ (d : RequestData) (st : Nat) (body : BackendBody),
      routePOST (.valid d) (.jsonResp st body) =
        .success body.sessionId body.debuggingUrl body.status body.title) := by
  refine ⟨fun req backend => ?_, fun req backend => ?_, fun d st body => rfl⟩
  · cases req with
    | malformed => simp [routePOST]
    | valid d =>
      cases backend with
      | unreachable => simp [routePOST]
      | invalidJson st => simp [routePOST]
      | jsonResp st body => simp [routePOST]
  · cases req with
    | malformed => simp [routePOST, httpStatusOf]
    | valid d =>
      cases backend with
      | unreachable => simp [routePOST, httpStatusOf]
      | invalidJson st => simp [routePOST, httpStatusOf]
      | jsonResp st body => simp [routePOST, httpStatusOf]

/-- Claim C8: at the session bootstrap boundary, for every request
carrying the form triple (url, intent, context) the route returns
either a response consisting of exactly the four fields destructured
from the reply of the provisioning backend — sessionId, debuggingUrl,
status, title — or the typed generic failure. -/
theorem bootstrap_response_shape (d : RequestData)
    (backend : BackendResult) :
    (∃ st body, backend = .jsonResp st body ∧
      routePOST (.valid d) backend =
        .success body.sessionId body.debuggingUrl body.status body.title) ∨
    routePOST (.valid d) backend = .genericError := by
  cases backend with
  | unreachable => exact Or.inr rfl
  | invalidJson st => exact Or.inr rfl
  | jsonResp st body => exact Or.inl ⟨st, body, rfl, rfl⟩

/-- The React state of `Form.tsx`: the three input fields, the
submitted flag, the loading flag and the error message. -/
structure FormState where
  requestData : RequestData
  submitted : Bool
  loading : Bool
  error : Option String
deriving DecidableEq, Repr

/-- How one submission attempt resolves, as observed inside
`handleSubmit`: the response was ok (its JSON parsed), the response was
not ok (its JSON parsed, possibly carrying an `error` field), or the
fetch / JSON parse threw. -/
inductive SubmitOutcome
  | okResp
  | errResp (errField : Option String)
  | thrown
deriving DecidableEq, Repr

/-- JavaScript `x || dflt` on an optional string: an absent or empty
string is falsy. -/
def jsOrDefault (s : Option String) (dflt : String) : String :=
  match s with
  | some v => if v = "" then dflt else v
  | none => dflt

/-- The state transition performed by `handleSubmit` in `Form.tsx`:
`setLoading(true)` and `setError(null)` happen first, then the branch
on the outcome, and `finally` resets `loading`.  Only the ok branch
touches `submitted` and clears the three fields. -/
def handleSubmit (s : FormState) (o : SubmitOutcome) : FormState :=
  match o with
  | .okResp =>
    { s with
      submitted := true
      requestData := ⟨"", "", ""⟩
      error := none
      loading := false }
  | .errResp msg =>
    { s with
      error := some (jsOrDefault msg "Unknown error")
      loading := false }
  | .thrown =>
    { s with
      error := some "Error occurred while submitting :("
      loading := false }

/-- Claim C9: the submission state of the form is atomic with respect to
failure: on any failed attempt (non-ok response or thrown fetch error)
the three input fields keep exactly their pre-attempt values and the
submitted flag is untouched (in particular it stays false); the fields
are reset to empty strings, and submitted set, exactly on the ok
branch. -/
theorem form_failure_atomic :
    (∀ (s : FormState) (o : SubmitOutcome), o ≠ .okResp →
      (handleSubmit s o).requestData = s.requestData ∧
      (handleSubmit s o).submitted = s.submitted) ∧
    (∀ s : FormState,
      (handleSubmit s .okResp).requestData = ⟨"", "", ""⟩ ∧
      (handleSubmit s .okResp).submitted = true) := by
  refine ⟨fun s o ho => ?_, fun s => ⟨rfl, rfl⟩⟩
  cases o with
  | okResp => exact absurd rfl ho
  | errResp msg => exact ⟨rfl, rfl⟩
  | thrown => exact ⟨rfl, rfl⟩

theorem form_failure_atomic_witness :
    ((SubmitOutcome.thrown ≠ SubmitOutcome.okResp) ∧
      (handleSubmit ⟨⟨"u", "i", "c"⟩, false, true, none⟩
        SubmitOutcome.thrown).requestData = ⟨"u", "i", "c"⟩ ∧
      (handleSubmit ⟨⟨"u", "i", "c"⟩, false, true, none⟩
        SubmitOutcome.thrown).submitted = false) :=
  ⟨by decide,
    form_failure_atomic.1 ⟨⟨"u", "i", "c"⟩, false, true, none⟩
      SubmitOutcome.thrown (by decide)⟩

/-- One metric card of `Metrics.tsx`: a title and a string-or-number
value. -/
inductive MetricValue
  | str (s : String)
  | num (n : Nat)
deriving DecidableEq, Repr

/-- One entry of the metrics list. -/
structure Metric where
  id : Nat
  title : String
  value : MetricValue
deriving DecidableEq, Repr

/-- The fixed mock list of `Metrics.tsx`, with its exact ids, titles
and values. -/
def mockData : List Metric :=
  [⟨1, "Completion Rate", .str "0%"⟩,
   ⟨2, "Steps to completion", .num 20⟩,
   ⟨4, "Error Rate", .str "0%"⟩,
   ⟨3, "Recommendation", .str "We recommend you do this!"⟩]

/-- `const dataDisplayed = metrics || mockData` — an array value is
always truthy in JavaScript (even when empty), so the mock list is used
exactly when the prop is undefined. -/
def dataDisplayed (metrics : Option (List Metric)) : List Metric :=
  match metrics with
  | some l => l
  | none => mockData

/-- The cards actually rendered: one per entry of `dataDisplayed`, each
showing the title and value of the entry. -/
def renderedCards (metrics : Option (List Metric)) :
    List (String × MetricValue) :=
  (dataDisplayed metrics).map (fun m => (m.title, m.value))

/-- Claim C10: the Metrics component displays exactly the `metrics`
prop whenever one is supplied — an empty array renders zero cards — and
exactly the fixed four-entry mock list (Completion Rate, Steps to
completion, Error Rate, Recommendation) when the prop is undefined. -/
theorem metrics_display_source :
    (∀ l : List Metric, dataDisplayed (some l) = l) ∧
    renderedCards (some []) = [] ∧
    dataDisplayed none = mockData ∧
    mockData.length = 4 ∧
    mockData.map (fun m => m.title) =
      ["Completion Rate", "Steps to completion", "Error Rate",
        "Recommendation"] := by
  exact ⟨fun l => rfl, rfl, rfl, rfl, rfl⟩
